import Mathlib

/-!
Verification of the n-gram address-search engine (src/app.py).

Shallow embedding conventions:
- Python strings are sequences of Unicode code points; we model them as
  List Char.
- A pandas DataFrame is modelled as its list of column names plus the list
  of rows; a row gives, for every column name, the cell as a string
  (src loads with dtype=str, so every cell read through str(row[col]) is a
  string).  Values of names outside the column list are irrelevant: the code
  guards every access with a membership test on df.columns.
- The Python dict underlying the defaultdict(list) index is modelled as an
  insertion-ordered association list; defaultdict lookup inserts a missing
  key with an empty list, which search_addresses performs, so its embedding
  returns the updated index alongside the result.
- search_addresses in the source finishes with df.iloc over the matched set
  of row labels; the engine-level result is that set of labels, which we
  return as a Finset Nat.
-/

abbrev Token := List Char

abbrev Row := String → List Char

structure DataFrame where
  columns : List String
  rows : List Row

/-- The hard-coded list of searchable columns in build_inverted_index. -/
def searchable_columns : List String :=
  ["都道府県", "都道府県カナ", "市区町村", "市区町村カナ",
   "町域", "町域カナ", "町域補足", "補足",
   "事業所名", "事業所名カナ", "事業所住所"]

/-- generate_2grams(text): [text[i:i+2] for i in range(len(text) - 1)].
Python range(len - 1) is empty when len = 0, which Nat subtraction mirrors. -/
def generate_2grams (text : List Char) : List Token :=
  (List.range (text.length - 1)).map (fun i => (text.drop i).take 2)

/-- The full_text accumulation inside build_inverted_index: concatenate the
searchable columns that exist in the DataFrame, in the hard-coded order,
with no separator. -/
def full_text (df : DataFrame) (row : Row) : List Char :=
  searchable_columns.foldl
    (fun acc col => if col ∈ df.columns then acc ++ row col else acc) []

/-- The 2-grams a record contributes to the index. -/
def rowTokens (df : DataFrame) (row : Row) : List Token :=
  generate_2grams (full_text df row)

/-- The defaultdict(list) index: an insertion-ordered association list from
token to posting list. -/
abbrev InvIndex := List (Token × List Nat)

/-- Plain read of a posting list; an absent key reads as the empty list
(defaultdict semantics for the value, ignoring the insertion side effect). -/
def lookupD (idx : InvIndex) (t : Token) : List Nat :=
  match idx with
  | [] => []
  | (k, v) :: rest => if k = t then v else lookupD rest t

/-- The key set (in insertion order) of the index dict. -/
def idxKeys (idx : InvIndex) : List Token :=
  idx.map Prod.fst

/-- index[token].append(i): defaultdict getitem inserts a missing key at the
end with a fresh empty list, then append mutates the list in place. -/
def addPosting (idx : InvIndex) (t : Token) (i : Nat) : InvIndex :=
  match idx with
  | [] => [(t, [i])]
  | (k, v) :: rest =>
    if k = t then (k, v ++ [i]) :: rest else (k, v) :: addPosting rest t i

/-- The inner loop of build_inverted_index: add record i under each of its
tokens, in token order. -/
def indexRow (idx : InvIndex) (i : Nat) (toks : List Token) : InvIndex :=
  toks.foldl (fun idx t => addPosting idx t i) idx

/-- build_inverted_index(df): iterate rows with their positional labels
(default RangeIndex: 0, 1, ...), tokenizing each row's concatenated
searchable text. -/
def build_inverted_index (df : DataFrame) : InvIndex :=
  (df.rows.enum).foldl
    (fun idx p => indexRow idx p.1 (rowTokens df p.2)) []

/-- defaultdict __getitem__ as used by search_addresses: returns the posting
list and the possibly-updated dict (a missing key is inserted at the end
with an empty list). -/
def dget (idx : InvIndex) (t : Token) : List Nat × InvIndex :=
  match idx with
  | [] => ([], [(t, [])])
  | (k, v) :: rest =>
    if k = t then (v, (k, v) :: rest)
    else ((dget rest t).1, (k, v) :: (dget rest t).2)

/-- search_addresses(query, index, df): tokenize the query; empty tokens
return the empty result; otherwise start from set(index[tokens[0]]) and
intersect with set(index[token]) for the remaining tokens.  Result is the
matched set of row labels together with the (possibly grown) index. -/
def search_addresses (query : List Char) (idx : InvIndex) :
    Finset ℕ × InvIndex :=
  match generate_2grams query with
  | [] => (∅, idx)
  | t0 :: rest =>
    rest.foldl
      (fun acc tok => (acc.1 ∩ ((dget acc.2 tok).1).toFinset, (dget acc.2 tok).2))
      (((dget idx t0).1).toFinset, (dget idx t0).2)

/-- t occurs at least once as a contiguous substring of text. -/
def occursIn (t text : List Char) : Prop :=
  ∃ pre post, text = pre ++ t ++ post

/-- Reference shape of a token's posting list over rows labelled from n:
each row label repeated once per occurrence of the token in that row's
text, in row order. -/
def postingsFrom (df : DataFrame) (n : Nat) (rows : List Row) (t : Token) :
    List Nat :=
  match rows with
  | [] => []
  | r :: rest =>
    List.replicate ((rowTokens df r).count t) n ++ postingsFrom df (n + 1) rest t

/-- The two-record example corpus of the spec scenario, with the source's
actual column names (都道府県 plays pref, 市区町村 plays city; the hard-coded
searchable order concatenates them in that order). -/
def df7 : DataFrame where
  columns := ["都道府県", "市区町村"]
  rows :=
    [fun c => if c = "都道府県" then "東京都".toList
              else if c = "市区町村" then "新宿区".toList else [],
     fun c => if c = "都道府県" then "大阪府".toList
              else if c = "市区町村" then "大阪市".toList else []]

/-- A record whose only searchable column present in the corpus is empty;
all other searchable columns are missing from the corpus schema, and the
record carries text only under a non-searchable name. -/
def row9 : Row := fun c => if c = "市区町村" then [] else "無視".toList

/-- A corpus exercising the missing-column path: one searchable column with
an empty value, one non-searchable column. -/
def df9 : DataFrame where
  columns := ["市区町村", "番号"]
  rows := [row9]

/-- Pure reading of search_addresses, ignoring the defaultdict insertion
side effect: intersect the postings of every query token. -/
def searchSpec (q : List Char) (idx : InvIndex) : Finset ℕ :=
  match generate_2grams q with
  | [] => ∅
  | t0 :: rest =>
    rest.foldl (fun m t => m ∩ (lookupD idx t).toFinset)
      (lookupD idx t0).toFinset

/-! ## Posting-list characterization of the build phase -/

theorem lookupD_addPosting (idx : InvIndex) (a t : Token) (i : Nat) :
    lookupD (addPosting idx a i) t =
      if a = t then lookupD idx t ++ [i] else lookupD idx t := by
  induction idx with
  | nil =>
    by_cases h : a = t <;> simp [addPosting, lookupD, h]
  | cons kv rest ih =>
    obtain ⟨k, v⟩ := kv
    by_cases hk : k = a
    · subst hk
      by_cases h : k = t <;> simp [addPosting, lookupD, h]
    · by_cases h : k = t
      · subst h
        have ha : ¬ a = k := fun hc => hk hc.symm
        simp [addPosting, lookupD, hk, ha]
      · simp [addPosting, lookupD, hk, h, ih]

theorem lookupD_indexRow (toks : List Token) (idx : InvIndex) (i : Nat)
    (t : Token) :
    lookupD (indexRow idx i toks) t =
      lookupD idx t ++ List.replicate (toks.count t) i := by
  induction toks generalizing idx with
  | nil => simp [indexRow]
  | cons a toks ih =>
    have hstep : indexRow idx i (a :: toks) = indexRow (addPosting idx a i) i toks := rfl
    rw [hstep, ih, lookupD_addPosting]
    by_cases h : a = t
    · subst h
      simp [List.count_cons, List.replicate_succ]
    · simp [List.count_cons, h]

theorem lookupD_buildFold (df : DataFrame) (rows : List Row) (n : Nat)
    (idx : InvIndex) (t : Token) :
    lookupD
      ((List.enumFrom n rows).foldl
        (fun idx p => indexRow idx p.1 (rowTokens df p.2)) idx) t =
      lookupD idx t ++ postingsFrom df n rows t := by
  induction rows generalizing n idx with
  | nil => simp [postingsFrom]
  | cons r rows ih =>
    have hstep : List.enumFrom n (r :: rows) = (n, r) :: List.enumFrom (n + 1) rows := rfl
    rw [hstep, List.foldl_cons, ih, postingsFrom]
    rw [lookupD_indexRow, List.append_assoc]

theorem build_lookup (df : DataFrame) (t : Token) :
    lookupD (build_inverted_index df) t = postingsFrom df 0 df.rows t := by
  have h := lookupD_buildFold df df.rows 0 [] t
  simpa [build_inverted_index, List.enum] using h

theorem mem_postingsFrom {df : DataFrame} {rows : List Row} {n r : Nat}
    {t : Token} :
    r ∈ postingsFrom df n rows t ↔
      ∃ j, ∃ h : j < rows.length, r = n + j ∧ t ∈ rowTokens df (rows.get ⟨j, h⟩) := by
  induction rows generalizing n with
  | nil => simp [postingsFrom]
  | cons row rows ih =>
    simp only [postingsFrom, List.mem_append, List.mem_replicate, ih]
    constructor
    · rintro (⟨hc, rfl⟩ | ⟨j, hj, rfl, hmem⟩)
      · refine ⟨0, by simp, by simp, ?_⟩
        have := List.count_pos_iff.mp (Nat.pos_of_ne_zero hc)
        simpa using this
      · exact ⟨j + 1, by simpa using Nat.succ_lt_succ hj, by omega, by simpa using hmem⟩
    · rintro ⟨j, hj, rfl, hmem⟩
      cases j with
      | zero =>
        left
        refine ⟨?_, by simp⟩
        have : 0 < (rowTokens df row).count t := List.count_pos_iff.mpr (by simpa using hmem)
        omega
      | succ j =>
        right
        refine ⟨j, by simpa using Nat.lt_of_succ_lt_succ hj, by omega, by simpa using hmem⟩

theorem mem_build_lookup {df : DataFrame} {r : Nat} {t : Token} :
    r ∈ lookupD (build_inverted_index df) t ↔
      ∃ h : r < df.rows.length, t ∈ rowTokens df (df.rows.get ⟨r, h⟩) := by
  rw [build_lookup, mem_postingsFrom]
  constructor
  · rintro ⟨j, hj, rfl, hmem⟩
    exact ⟨by simpa using hj, by simpa using hmem⟩
  · rintro ⟨h, hmem⟩
    exact ⟨r, h, (Nat.zero_add r).symm, hmem⟩

theorem le_of_mem_postingsFrom {df : DataFrame} {rows : List Row} {n m : Nat}
    {t : Token} (h : m ∈ postingsFrom df n rows t) : n ≤ m := by
  induction rows generalizing n with
  | nil => simp [postingsFrom] at h
  | cons row rows ih =>
    simp only [postingsFrom, List.mem_append, List.mem_replicate] at h
    rcases h with ⟨-, rfl⟩ | h
    · exact Nat.le_refl m
    · exact Nat.le_trans (Nat.le_succ n) (ih h)

theorem pairwise_le_replicate (n m : Nat) :
    List.Pairwise (· ≤ ·) (List.replicate n m) := by
  induction n with
  | zero => simp
  | succ n ih =>
    rw [List.replicate_succ]
    exact List.Pairwise.cons
      (fun b hb => by rw [List.eq_of_mem_replicate hb]) ih

theorem sorted_postingsFrom (df : DataFrame) (rows : List Row) (n : Nat)
    (t : Token) : List.Sorted (· ≤ ·) (postingsFrom df n rows t) := by
  induction rows generalizing n with
  | nil => simp [postingsFrom]
  | cons row rows ih =>
    rw [postingsFrom]
    show List.Pairwise (· ≤ ·) _
    refine List.pairwise_append.mpr ⟨pairwise_le_replicate _ _, ih (n + 1), ?_⟩
    intro a ha b hb
    have ha' : a = n := List.eq_of_mem_replicate ha
    have hb' : n + 1 ≤ b := le_of_mem_postingsFrom hb
    omega

theorem count_postingsFrom (df : DataFrame) (rows : List Row) (t : Token)
    (n j : Nat) :
    (postingsFrom df n rows t).count (n + j) =
      if h : j < rows.length then (rowTokens df (rows.get ⟨j, h⟩)).count t
      else 0 := by
  induction rows generalizing n j with
  | nil => simp [postingsFrom]
  | cons row rows ih =>
    rw [postingsFrom, List.count_append, List.count_replicate]
    cases j with
    | zero =>
      have h0 : (postingsFrom df (n + 1) rows t).count n = 0 := by
        rw [List.count_eq_zero]
        intro hmem
        have := le_of_mem_postingsFrom hmem
        omega
      simp [h0]
    | succ j =>
      have hne : ¬ (n == n + (j + 1)) = true := by
        simp only [beq_iff_eq]
        omega
      rw [if_neg hne]
      have hsh : n + (j + 1) = (n + 1) + j := by omega
      rw [hsh, ih (n + 1) j]
      by_cases hj : j < rows.length
      · rw [dif_pos hj, dif_pos (by simp only [List.length_cons]; omega)]
        simp
      · rw [dif_neg hj, dif_neg (by simp only [List.length_cons]; omega)]

theorem count_build_lookup (df : DataFrame) (t : Token) (r : Nat) :
    (lookupD (build_inverted_index df) t).count r =
      if h : r < df.rows.length then
        (rowTokens df (df.rows.get ⟨r, h⟩)).count t
      else 0 := by
  rw [build_lookup]
  have h := count_postingsFrom df df.rows t 0 r
  simpa using h

theorem sorted_build_lookup (df : DataFrame) (t : Token) :
    List.Sorted (· ≤ ·) (lookupD (build_inverted_index df) t) := by
  rw [build_lookup]
  exact sorted_postingsFrom df df.rows 0 t

/-! ## Key-set characterization of the build phase -/

theorem mem_idxKeys_addPosting {idx : InvIndex} {a t : Token} {i : Nat} :
    t ∈ idxKeys (addPosting idx a i) ↔ t ∈ idxKeys idx ∨ t = a := by
  induction idx with
  | nil => simp [addPosting, idxKeys]
  | cons kv rest ih =>
    obtain ⟨k, v⟩ := kv
    by_cases hk : k = a
    · subst hk
      rw [show addPosting ((k, v) :: rest) k i = (k, v ++ [i]) :: rest from by
        simp [addPosting]]
      simp only [idxKeys, List.map_cons, List.mem_cons]
      tauto
    · rw [show addPosting ((k, v) :: rest) a i = (k, v) :: addPosting rest a i from by
        simp [addPosting, hk]]
      simp only [idxKeys, List.map_cons, List.mem_cons]
      rw [show (addPosting rest a i).map Prod.fst = idxKeys (addPosting rest a i) from rfl]
      rw [ih]
      tauto

theorem mem_idxKeys_indexRow {toks : List Token} {idx : InvIndex} {i : Nat}
    {t : Token} :
    t ∈ idxKeys (indexRow idx i toks) ↔ t ∈ idxKeys idx ∨ t ∈ toks := by
  induction toks generalizing idx with
  | nil => simp [indexRow]
  | cons a toks ih =>
    have hstep : indexRow idx i (a :: toks) = indexRow (addPosting idx a i) i toks := rfl
    rw [hstep, ih, mem_idxKeys_addPosting]
    simp only [List.mem_cons]
    tauto

theorem mem_idxKeys_buildFold (df : DataFrame) (rows : List Row) (n : Nat)
    (idx : InvIndex) (t : Token) :
    t ∈ idxKeys
        ((List.enumFrom n rows).foldl
          (fun idx p => indexRow idx p.1 (rowTokens df p.2)) idx) ↔
      t ∈ idxKeys idx ∨ ∃ row ∈ rows, t ∈ rowTokens df row := by
  induction rows generalizing n idx with
  | nil => simp
  | cons r rows ih =>
    have hstep : List.enumFrom n (r :: rows) = (n, r) :: List.enumFrom (n + 1) rows := rfl
    rw [hstep, List.foldl_cons, ih, mem_idxKeys_indexRow]
    simp only [List.mem_cons]
    constructor
    · rintro ((h | h) | ⟨row, hrow, hmem⟩)
      · exact Or.inl h
      · exact Or.inr ⟨r, Or.inl rfl, h⟩
      · exact Or.inr ⟨row, Or.inr hrow, hmem⟩
    · rintro (h | ⟨row, hrow | hrow, hmem⟩)
      · exact Or.inl (Or.inl h)
      · subst hrow; exact Or.inl (Or.inr hmem)
      · exact Or.inr ⟨row, hrow, hmem⟩

theorem mem_idxKeys_build {df : DataFrame} {t : Token} :
    t ∈ idxKeys (build_inverted_index df) ↔
      ∃ row ∈ df.rows, t ∈ rowTokens df row := by
  have h := mem_idxKeys_buildFold df df.rows 0 [] t
  simpa [build_inverted_index, List.enum, idxKeys] using h

theorem lookupD_eq_nil_of_not_mem_idxKeys {idx : InvIndex} {t : Token}
    (h : t ∉ idxKeys idx) : lookupD idx t = [] := by
  induction idx with
  | nil => rfl
  | cons kv rest ih =>
    obtain ⟨k, v⟩ := kv
    simp only [idxKeys, List.map_cons, List.mem_cons] at h
    push_neg at h
    simp only [lookupD, if_neg (fun hc : k = t => h.1 hc.symm)]
    exact ih (by simpa [idxKeys] using h.2)

/-! ## The defaultdict lookup used by the query phase -/

theorem dget_fst (idx : InvIndex) (t : Token) :
    (dget idx t).1 = lookupD idx t := by
  induction idx with
  | nil => rfl
  | cons kv rest ih =>
    obtain ⟨k, v⟩ := kv
    by_cases h : k = t <;> simp [dget, lookupD, h, ih]

theorem lookupD_dget_snd (idx : InvIndex) (t t' : Token) :
    lookupD ((dget idx t).2) t' = lookupD idx t' := by
  induction idx with
  | nil =>
    by_cases h : t = t' <;> simp [dget, lookupD, h]
  | cons kv rest ih =>
    obtain ⟨k, v⟩ := kv
    by_cases h : k = t
    · simp [dget, h]
    · by_cases h' : k = t'
      · subst h'
        simp [dget, lookupD, h]
      · simp [dget, lookupD, h, h', ih]

theorem mem_idxKeys_dget_snd {idx : InvIndex} {t t' : Token} :
    t' ∈ idxKeys ((dget idx t).2) ↔ t' ∈ idxKeys idx ∨ t' = t := by
  induction idx with
  | nil => simp [dget, idxKeys]
  | cons kv rest ih =>
    obtain ⟨k, v⟩ := kv
    by_cases h : k = t
    · subst h
      rw [show (dget ((k, v) :: rest) k).2 = (k, v) :: rest from by simp [dget]]
      simp only [idxKeys, List.map_cons, List.mem_cons]
      tauto
    · rw [show (dget ((k, v) :: rest) t).2 = (k, v) :: (dget rest t).2 from by
        simp [dget, h]]
      simp only [idxKeys, List.map_cons, List.mem_cons]
      rw [show ((dget rest t).2).map Prod.fst = idxKeys ((dget rest t).2) from rfl]
      rw [ih]
      tauto

/-! ## Characterization of the query phase -/

theorem search_foldl_fst (rest : List Token) (idx : InvIndex) :
    ∀ (m : Finset ℕ) (idx' : InvIndex),
      (∀ t, lookupD idx' t = lookupD idx t) →
      (rest.foldl
          (fun acc tok =>
            (acc.1 ∩ ((dget acc.2 tok).1).toFinset, (dget acc.2 tok).2))
          (m, idx')).1 =
        rest.foldl (fun m t => m ∩ (lookupD idx t).toFinset) m := by
  induction rest with
  | nil => intro m idx' _; rfl
  | cons a rest ih =>
    intro m idx' h
    simp only [List.foldl_cons]
    rw [ih _ _ (fun t => by rw [lookupD_dget_snd, h t])]
    rw [dget_fst, h a]

theorem search_foldl_snd_lookup (rest : List Token) :
    ∀ (m : Finset ℕ) (idx' : InvIndex) (t : Token),
      lookupD
        ((rest.foldl
          (fun acc tok =>
            (acc.1 ∩ ((dget acc.2 tok).1).toFinset, (dget acc.2 tok).2))
          (m, idx')).2) t = lookupD idx' t := by
  induction rest with
  | nil => intro m idx' t; rfl
  | cons a rest ih =>
    intro m idx' t
    simp only [List.foldl_cons]
    rw [ih]
    exact lookupD_dget_snd idx' a t

theorem search_foldl_snd_keys (rest : List Token) :
    ∀ (m : Finset ℕ) (idx' : InvIndex) (t : Token),
      t ∈ idxKeys
        ((rest.foldl
          (fun acc tok =>
            (acc.1 ∩ ((dget acc.2 tok).1).toFinset, (dget acc.2 tok).2))
          (m, idx')).2) ↔ t ∈ idxKeys idx' ∨ t ∈ rest := by
  induction rest with
  | nil => intro m idx' t; simp
  | cons a rest ih =>
    intro m idx' t
    simp only [List.foldl_cons]
    rw [ih, mem_idxKeys_dget_snd]
    simp only [List.mem_cons]
    tauto

theorem search_fst (q : List Char) (idx : InvIndex) :
    (search_addresses q idx).1 = searchSpec q idx := by
  unfold search_addresses searchSpec
  cases hg : generate_2grams q with
  | nil => rfl
  | cons t0 rest =>
    simp only
    rw [search_foldl_fst rest idx _ _ (fun t => lookupD_dget_snd idx t0 t)]
    rw [dget_fst]

theorem lookupD_search_snd (q : List Char) (idx : InvIndex) (t : Token) :
    lookupD ((search_addresses q idx).2) t = lookupD idx t := by
  unfold search_addresses
  cases hg : generate_2grams q with
  | nil => rfl
  | cons t0 rest =>
    simp only
    rw [search_foldl_snd_lookup]
    exact lookupD_dget_snd idx t0 t

theorem mem_idxKeys_search_snd (q : List Char) (idx : InvIndex) (t : Token) :
    t ∈ idxKeys ((search_addresses q idx).2) ↔
      t ∈ idxKeys idx ∨ t ∈ generate_2grams q := by
  unfold search_addresses
  cases hg : generate_2grams q with
  | nil => simp
  | cons t0 rest =>
    simp only
    rw [search_foldl_snd_keys, mem_idxKeys_dget_snd]
    simp only [List.mem_cons]
    tauto

theorem mem_foldl_inter (rest : List Token) (f : Token → Finset ℕ) (r : ℕ) :
    ∀ m : Finset ℕ,
      (r ∈ rest.foldl (fun m t => m ∩ f t) m ↔ r ∈ m ∧ ∀ t ∈ rest, r ∈ f t) := by
  induction rest with
  | nil => intro m; simp
  | cons a rest ih =>
    intro m
    simp only [List.foldl_cons]
    rw [ih]
    simp only [Finset.mem_inter, List.mem_cons]
    constructor
    · rintro ⟨⟨hm, ha⟩, hrest⟩
      exact ⟨hm, fun t ht => by
        rcases ht with rfl | ht
        · exact ha
        · exact hrest t ht⟩
    · rintro ⟨hm, hall⟩
      exact ⟨⟨hm, hall a (Or.inl rfl)⟩, fun t ht => hall t (Or.inr ht)⟩

theorem mem_search (q : List Char) (idx : InvIndex) (r : ℕ)
    (hq : generate_2grams q ≠ []) :
    r ∈ (search_addresses q idx).1 ↔
      ∀ t ∈ generate_2grams q, r ∈ lookupD idx t := by
  rw [search_fst]
  unfold searchSpec
  cases hg : generate_2grams q with
  | nil => exact absurd hg hq
  | cons t0 rest =>
    simp only
    rw [mem_foldl_inter rest (fun t => (lookupD idx t).toFinset) r]
    simp only [List.mem_toFinset, List.forall_mem_cons]

/-! ## Tokenizer facts -/

theorem length_generate_2grams (s : List Char) :
    (generate_2grams s).length = s.length - 1 := by
  simp [generate_2grams]

theorem generate_2grams_eq_nil (s : List Char) (h : s.length < 2) :
    generate_2grams s = [] := by
  have : (generate_2grams s).length = 0 := by
    rw [length_generate_2grams]; omega
  exact List.length_eq_zero.mp this

theorem generate_2grams_ne_nil (s : List Char) (h : 2 ≤ s.length) :
    generate_2grams s ≠ [] := by
  intro hc
  have := length_generate_2grams s
  rw [hc] at this
  simp at this
  omega

theorem mem_generate_2grams {t s : List Char} :
    t ∈ generate_2grams s ↔ t.length = 2 ∧ occursIn t s := by
  unfold generate_2grams occursIn
  simp only [List.mem_map, List.mem_range]
  constructor
  · rintro ⟨i, hi, rfl⟩
    have hlen : i + 2 ≤ s.length := by omega
    constructor
    · rw [List.length_take, List.length_drop]
      omega
    · refine ⟨s.take i, (s.drop i).drop 2, ?_⟩
      calc s = s.take i ++ s.drop i := (List.take_append_drop i s).symm
        _ = s.take i ++ ((s.drop i).take 2 ++ (s.drop i).drop 2) := by
          rw [List.take_append_drop 2 (s.drop i)]
        _ = s.take i ++ (s.drop i).take 2 ++ (s.drop i).drop 2 := by
          rw [List.append_assoc]
  · rintro ⟨hlen, pre, post, rfl⟩
    refine ⟨pre.length, ?_, ?_⟩
    · simp only [List.length_append, hlen]
      omega
    · rw [List.append_assoc, List.drop_left, ← hlen, List.take_left]

theorem length_of_mem_generate_2grams {t s : List Char}
    (h : t ∈ generate_2grams s) : t.length = 2 :=
  (mem_generate_2grams.mp h).1

/-! ## full_text accumulation facts -/

theorem foldl_concat_ite (cols : List String) (df : DataFrame) (row : Row) :
    ∀ acc,
      cols.foldl (fun acc col => if col ∈ df.columns then acc ++ row col else acc) acc =
        cols.foldl (fun acc col => acc ++ (if col ∈ df.columns then row col else [])) acc := by
  induction cols with
  | nil => intro acc; rfl
  | cons c cols ih =>
    intro acc
    simp only [List.foldl_cons]
    by_cases h : c ∈ df.columns <;> simp [h, ih]

theorem foldl_concat_empty (cols : List String) (df : DataFrame) (row : Row) :
    ∀ acc, (∀ col ∈ cols, col ∈ df.columns → row col = []) →
      cols.foldl (fun acc col => if col ∈ df.columns then acc ++ row col else acc) acc = acc := by
  induction cols with
  | nil => intro acc _; rfl
  | cons c cols ih =>
    intro acc h
    simp only [List.foldl_cons]
    by_cases hc : c ∈ df.columns
    · rw [if_pos hc, h c (by simp) hc, List.append_nil]
      exact ih acc (fun col hcol => h col (by simp [hcol]))
    · rw [if_neg hc]
      exact ih acc (fun col hcol => h col (by simp [hcol]))

/-! ## searchSpec congruence -/

theorem foldl_inter_congr (rest : List Token) (f g : Token → Finset ℕ)
    (hfg : ∀ t, f t = g t) :
    ∀ m, rest.foldl (fun m t => m ∩ f t) m = rest.foldl (fun m t => m ∩ g t) m := by
  induction rest with
  | nil => intro m; rfl
  | cons a rest ih =>
    intro m
    simp only [List.foldl_cons]
    rw [hfg a]
    exact ih _

theorem searchSpec_congr (q : List Char) (idx idx2 : InvIndex)
    (h : ∀ u, (lookupD idx u).toFinset = (lookupD idx2 u).toFinset) :
    searchSpec q idx = searchSpec q idx2 := by
  unfold searchSpec
  cases generate_2grams q with
  | nil => rfl
  | cons t0 rest =>
    simp only
    rw [h t0]
    exact foldl_inter_congr rest _ _ h _

/-! ## The claims -/

/-- Claim C1: for every query q with len(q) >= 2 and every index built by
build_inverted_index, a record r of the corpus is in search(q, index) iff
every 2-gram of q occurs at least once in r's concatenated searchable text
(conjunctive matching, no partial-match or OR-mode). -/
theorem claim_C1_conjunctive_search (df : DataFrame) (q : List Char) (r : ℕ)
    (hr : r < df.rows.length) (hq : 2 ≤ q.length) :
    r ∈ (search_addresses q (build_inverted_index df)).1 ↔
      ∀ t ∈ generate_2grams q,
        occursIn t (full_text df (df.rows.get ⟨r, hr⟩)) := by
  rw [mem_search _ _ _ (generate_2grams_ne_nil q hq)]
  constructor
  · intro h t ht
    obtain ⟨h2, hmem⟩ := mem_build_lookup.mp (h t ht)
    simp only [rowTokens] at hmem
    exact (mem_generate_2grams.mp hmem).2
  · intro h t ht
    rw [mem_build_lookup]
    refine ⟨hr, ?_⟩
    simp only [rowTokens]
    exact mem_generate_2grams.mpr ⟨length_of_mem_generate_2grams ht, h t ht⟩

theorem claim_C1_witness :
    (0 ∈ (search_addresses "東京都".toList (build_inverted_index df7)).1 ↔
      ∀ t ∈ generate_2grams "東京都".toList,
        occursIn t (full_text df7 (df7.rows.get ⟨0, by decide⟩))) :=
  claim_C1_conjunctive_search df7 "東京都".toList 0 (by decide) (by decide)

/-- Claim C2: after build_inverted_index, a record identifier r appears in
the posting list for a token t iff t occurs at least once as a contiguous
2-character substring of the concatenation of r's searchable field values
in the configured order with no separator. -/
theorem claim_C2_posting_membership (df : DataFrame) (t : Token) (r : ℕ) :
    r ∈ lookupD (build_inverted_index df) t ↔
      ∃ h : r < df.rows.length,
        t.length = 2 ∧ occursIn t (full_text df (df.rows.get ⟨r, h⟩)) := by
  rw [mem_build_lookup]
  constructor
  · rintro ⟨h, hmem⟩
    simp only [rowTokens] at hmem
    exact ⟨h, mem_generate_2grams.mp hmem⟩
  · rintro ⟨h, hlen, hocc⟩
    refine ⟨h, ?_⟩
    simp only [rowTokens]
    exact mem_generate_2grams.mpr ⟨hlen, hocc⟩

theorem claim_C2_witness :
    (1 ∈ lookupD (build_inverted_index df7) "大阪".toList ↔
      ∃ h : 1 < df7.rows.length,
        ("大阪".toList).length = 2 ∧
          occursIn "大阪".toList (full_text df7 (df7.rows.get ⟨1, h⟩))) :=
  claim_C2_posting_membership df7 "大阪".toList 1

/-- Claim C3: generate_2grams returns exactly max(0, len(s) - 2 + 1) tokens
in left-to-right order, token i being the substring at offsets i..i+1, each
of length exactly 2; for len(s) < 2 the result is the empty sequence. -/
theorem claim_C3_tokenizer_shape (s : List Char) :
    ((generate_2grams s).length : ℤ) = max 0 ((s.length : ℤ) - 2 + 1) ∧
    (∀ i, ∀ h : i < (generate_2grams s).length,
      (generate_2grams s).get ⟨i, h⟩ = (s.drop i).take 2 ∧
      ((generate_2grams s).get ⟨i, h⟩).length = 2) ∧
    (s.length < 2 → generate_2grams s = []) := by
  refine ⟨?_, ?_, generate_2grams_eq_nil s⟩
  · rw [length_generate_2grams]
    omega
  · intro i h
    have hlen : i < s.length - 1 := by
      have := length_generate_2grams s
      omega
    have hget : (generate_2grams s).get ⟨i, h⟩ = (s.drop i).take 2 := by
      simp [generate_2grams]
    refine ⟨hget, ?_⟩
    rw [hget, List.length_take, List.length_drop]
    omega

theorem claim_C3_witness :
    (((generate_2grams "東京都".toList).length : ℤ) =
        max 0 ((("東京都".toList).length : ℤ) - 2 + 1) ∧
      (∀ i, ∀ h : i < (generate_2grams "東京都".toList).length,
        (generate_2grams "東京都".toList).get ⟨i, h⟩ =
            (("東京都".toList).drop i).take 2 ∧
        ((generate_2grams "東京都".toList).get ⟨i, h⟩).length = 2) ∧
      (("東京都".toList).length < 2 → generate_2grams "東京都".toList = [])) :=
  claim_C3_tokenizer_shape "東京都".toList

/-- Claim C4: a query shorter than 2 characters (including the empty one)
returns the empty result set against any index. -/
theorem claim_C4_short_query (q : List Char) (idx : InvIndex)
    (h : q.length < 2) : (search_addresses q idx).1 = ∅ := by
  unfold search_addresses
  rw [generate_2grams_eq_nil q h]

theorem claim_C4_witness :
    (search_addresses "東".toList (build_inverted_index df7)).1 = ∅ :=
  claim_C4_short_query "東".toList (build_inverted_index df7) (by decide)

/-- Claim C5 (counterexample): searching for a token absent from the index
inserts that token as a new key of the defaultdict, so search does mutate
the index key set. -/
theorem claim_C5_counterexample :
    ¬ ((search_addresses "沖縄".toList (build_inverted_index df7)).2 =
        build_inverted_index df7) := by
  decide

/-- Claim C5 (amended): search never changes the content of any posting
list (every token reads the same before and after), and never removes a
key; however a lookup of a token absent from the index inserts it with an
empty posting list, so the key set may grow by query tokens, without
changing what any search can observe. -/
theorem claim_C5_read_only_semantics (q : List Char) (idx : InvIndex)
    (t : Token) :
    lookupD ((search_addresses q idx).2) t = lookupD idx t ∧
    (t ∈ idxKeys idx → t ∈ idxKeys ((search_addresses q idx).2)) ∧
    (t ∈ idxKeys ((search_addresses q idx).2) →
      t ∈ idxKeys idx ∨ t ∈ generate_2grams q) := by
  refine ⟨lookupD_search_snd q idx t, ?_, ?_⟩
  · intro h
    exact (mem_idxKeys_search_snd q idx t).mpr (Or.inl h)
  · exact fun h => (mem_idxKeys_search_snd q idx t).mp h

theorem claim_C5_witness :
    "東京".toList ∈
      idxKeys ((search_addresses "沖縄".toList (build_inverted_index df7)).2) :=
  (claim_C5_read_only_semantics "沖縄".toList (build_inverted_index df7)
    "東京".toList).2.1 (by decide)

/-- Claim C6: immediately after build_inverted_index, a string is a key of
the index iff it appears as a 2-gram of at least one record's concatenated
searchable text; any absent string reads as an empty posting list. -/
theorem claim_C6_key_set (df : DataFrame) (t : Token) :
    (t ∈ idxKeys (build_inverted_index df) ↔
      ∃ row ∈ df.rows, t ∈ generate_2grams (full_text df row)) ∧
    (t ∉ idxKeys (build_inverted_index df) →
      lookupD (build_inverted_index df) t = []) := by
  constructor
  · simpa [rowTokens] using @mem_idxKeys_build df t
  · exact lookupD_eq_nil_of_not_mem_idxKeys

theorem claim_C6_witness :
    lookupD (build_inverted_index df7) "沖縄".toList = [] :=
  (claim_C6_key_set df7 "沖縄".toList).2 (by decide)

/-- Claim C7: the concrete two-record scenario: queries 東京都, 大阪, 都区,
都新 (cross-field-boundary match) and 沖縄 (absent token) return exactly
the specified result sets. -/
theorem claim_C7_concrete_scenario :
    (search_addresses "東京都".toList (build_inverted_index df7)).1 = {0} ∧
    (search_addresses "大阪".toList (build_inverted_index df7)).1 = {1} ∧
    (search_addresses "都区".toList (build_inverted_index df7)).1 = ∅ ∧
    (search_addresses "都新".toList (build_inverted_index df7)).1 = {0} ∧
    (search_addresses "沖縄".toList (build_inverted_index df7)).1 = ∅ := by
  decide

/-- Claim C8: building the index twice from the same corpus snapshot yields
identical key sets and, for every key, identical posting lists. -/
theorem claim_C8_build_deterministic (df df2 : DataFrame) (h : df = df2) :
    idxKeys (build_inverted_index df) = idxKeys (build_inverted_index df2) ∧
    ∀ t, lookupD (build_inverted_index df) t =
      lookupD (build_inverted_index df2) t := by
  subst h
  exact ⟨rfl, fun _ => rfl⟩

theorem claim_C8_witness :
    idxKeys (build_inverted_index df7) = idxKeys (build_inverted_index df7) ∧
    ∀ t, lookupD (build_inverted_index df7) t =
      lookupD (build_inverted_index df7) t :=
  claim_C8_build_deterministic df7 df7 rfl

/-- Claim C9: build_inverted_index is total over any corpus; a configured
searchable field missing from the corpus schema contributes the empty
string to the concatenation rather than an error, and a record whose
searchable text is empty contributes no tokens and leaves the index
untouched. -/
theorem claim_C9_builder_totality (df : DataFrame) (row : Row) :
    full_text df row =
      searchable_columns.foldl
        (fun acc col => acc ++ (if col ∈ df.columns then row col else [])) [] ∧
    ((∀ col ∈ searchable_columns, col ∈ df.columns → row col = []) →
      full_text df row = [] ∧
      generate_2grams (full_text df row) = [] ∧
      ∀ (idx : InvIndex) (i : Nat),
        indexRow idx i (generate_2grams (full_text df row)) = idx) := by
  constructor
  · simp only [full_text]
    exact foldl_concat_ite searchable_columns df row []
  · intro h
    have hft : full_text df row = [] :=
      foldl_concat_empty searchable_columns df row [] h
    refine ⟨hft, ?_, ?_⟩
    · rw [hft]
      rfl
    · intro idx i
      rw [hft]
      rfl

theorem claim_C9_witness :
    full_text df9 row9 = [] ∧ generate_2grams (full_text df9 row9) = [] :=
  ⟨((claim_C9_builder_totality df9 row9).2 (by decide)).1,
   ((claim_C9_builder_totality df9 row9).2 (by decide)).2.1⟩

/-- Claim C10: every built posting list is nondecreasing in the record
index, holds a record once per occurrence of the token in that record's
text (never deduplicated), and duplicates cannot change search results,
since search only depends on the postings read as sets. -/
theorem claim_C10_postings_order_multiplicity (df : DataFrame) (t : Token) :
    List.Sorted (· ≤ ·) (lookupD (build_inverted_index df) t) ∧
    (∀ r, ∀ h : r < df.rows.length,
      (lookupD (build_inverted_index df) t).count r =
        (generate_2grams (full_text df (df.rows.get ⟨r, h⟩))).count t) ∧
    (∀ (q : List Char) (idx idx2 : InvIndex),
      (∀ u, (lookupD idx u).toFinset = (lookupD idx2 u).toFinset) →
      (search_addresses q idx).1 = (search_addresses q idx2).1) := by
  refine ⟨sorted_build_lookup df t, ?_, ?_⟩
  · intro r h
    rw [count_build_lookup df t r, dif_pos h]
    rfl
  · intro q idx idx2 hidx
    rw [search_fst, search_fst]
    exact searchSpec_congr q idx idx2 hidx

theorem claim_C10_witness :
    (lookupD (build_inverted_index df7) "大阪".toList).count 1 =
      (generate_2grams
        (full_text df7 (df7.rows.get ⟨1, by decide⟩))).count "大阪".toList :=
  (claim_C10_postings_order_multiplicity df7 "大阪".toList).2.1 1 (by decide)
